import Mathlib

/-!
Shallow embedding of the `twitter-analysis` crawl pipeline
(`twitter_analysis/twitter.py`, `twitter_analysis/database.py`,
`twitter_analysis/main.py`) together with theorems settling the
specification claims about it.

Conventions:
* Python dict access `d["k"]` that can raise `KeyError` is modelled by
  `Option` fields plus the `req` accessor returning `Except ParseError`.
* sqlite tables are modelled as Lean lists of row structures, in rowid
  (primary-key) storage order for full-table scans; `REAL` columns are
  modelled by `Rat` (no arithmetic is ever performed on them here).
* The paginated HTTP search is modelled against a script of API
  responses: each request consumes the next scripted response, which is
  either a page or an HTTP 429 (`BucketFullException`) carrying the
  limiter's `remaining_time`.
-/

deriving instance DecidableEq for Except

namespace TwitterAnalysis

/-! ### The paginated search of `TwitterApiV2.search` (twitter.py) -/

/-- One page of raw search results, as held in the Python variable
`results`: the `data` list of raw tweet records (abstracted to opaque
record identifiers — `search` only reads its length), the
`includes.users` list, the id→full_name place mapping, and the
continuation token `meta.next_token` (absent ⇒ terminal). -/
structure Page where
  data : List Nat
  users : List Nat
  places : List (String × String)
  next_token : Option String
deriving DecidableEq, Repr

/-- The outcome of one `_make_api_call`: a 200 response with a page, or
an HTTP 429 which `_make_api_call` raises as `BucketFullException`
carrying `meta_info["remaining_time"]` (here in whole seconds). -/
inductive ApiResp where
  | ok (p : Page)
  | rateLimited (remaining : Nat)
deriving DecidableEq, Repr

/-- Observable events of the `search` generator: a yielded
`(tweets, users, places)` page, or a `sleep(n)` suspension.  The
sub-second burst-smoothing sleep at the end of each loop iteration
depends on wall-clock time and is not modelled. -/
inductive Event where
  | page (p : Page)
  | sleep (seconds : Nat)
deriving DecidableEq, Repr

/-- The loop guard `if limit and limit < tweet_count: break` of
`search`: Python's `limit and …` is falsy for `None` and for `0`. -/
def limitBreak (limit : Option Int) (tweet_count : Nat) : Bool :=
  match limit with
  | none => false
  | some l => l != 0 && decide (l < (tweet_count : Int))

/-- The `while results["meta"].get("next_token", False):` loop of
`TwitterApiV2.search`, driven by the response script.  `results` is the
current value of the Python variable `results` and `count` the current
`tweet_count`.  Faithful to the source, the `except BucketFullException`
arm of the loop body sleeps but does **not** re-issue the request, so
`results` keeps its previous value and the stale page is yielded
again. -/
def searchLoop (limit : Option Int) : List ApiResp → Page → Nat → List Event
  | [], _, _ => []
  | r :: rest, results, count =>
    match results.next_token with
    | none => []
    | some _ =>
      if limitBreak limit count then []
      else
        match r with
        | .ok p => .page p :: searchLoop limit rest p (count + p.data.length)
        | .rateLimited remaining =>
            .sleep (remaining + 1) :: .page results ::
              searchLoop limit rest results (count + results.data.length)

/-- Model of `TwitterApiV2.search`: the initial request retries once after a
rate-limit rejection (sleep `remaining_time + 1`, then re-issue); a
second consecutive rejection propagates out of the generator, yielding
no page.  Afterwards the first page is yielded and the pagination loop
runs. -/
def search (script : List ApiResp) (limit : Option Int) : List Event :=
  match script with
  | [] => []
  | .ok p :: rest => .page p :: searchLoop limit rest p p.data.length
  | .rateLimited remaining :: rest =>
    match rest with
    | .ok p :: rest2 =>
        .sleep (remaining + 1) :: .page p :: searchLoop limit rest2 p p.data.length
    | _ => [.sleep (remaining + 1)]

/-- The pages among the generator's events, in yield order. -/
def yieldedPages (evts : List Event) : List Page :=
  evts.filterMap fun e => match e with | .page p => some p | .sleep _ => none

/-! ### Record parsing (`parse_tweet`, `parse_user` in twitter.py) -/

/-- A structured parse failure: the uncaught exception a raw-record
accessor raises.  `keyError k` models Python's `KeyError` on a missing
required key `k`; `typeError` models the `TypeError` that
`",".join(media)` raises when a media item has neither `url` nor
`preview_image_url`. -/
inductive ParseError where
  | keyError (key : String)
  | typeError
deriving DecidableEq, Repr

/-- Required-key access `d[k]`: missing key raises `KeyError k`. -/
def req (o : Option α) (k : String) : Except ParseError α :=
  match o with
  | some a => .ok a
  | none => .error (.keyError k)

/-- Model of `tweet["public_metrics"]`, whose individual counters are read with
`.get(…, 0)` defaults. -/
structure PublicMetrics where
  like_count : Option Int
  reply_count : Option Int
  retweet_count : Option Int
  quote_count : Option Int
deriving DecidableEq, Repr

/-- The `entities` block; each entity object is abstracted to the single
field `parse_tweet` reads from it (`tag`, `username`, `expanded_url`). -/
structure Entities where
  hashtags : Option (List String)
  mentions : Option (List String)
  urls : Option (List String)
deriving DecidableEq, Repr

/-- One element of `tweet.get("media", [])`. -/
structure MediaItem where
  url : Option String
  preview_image_url : Option String
deriving DecidableEq, Repr

/-- One element of `tweet.get("referenced_tweets", …)`; both keys are
read by the comprehension, `id` only for elements whose `type` is
`"replied_to"`. -/
structure RefTweet where
  type : Option String
  id : Option String
deriving DecidableEq, Repr

/-- A raw tweet record as `parse_tweet` reads it; `geo` is abstracted to
the `place_id` it carries. -/
structure RawTweet where
  id : Option String
  author_id : Option String
  text : Option String
  created_at : Option String
  conversation_id : Option String
  public_metrics : Option PublicMetrics
  entities : Option Entities
  geo : Option String
  media : Option (List MediaItem)
  referenced_tweets : Option (List RefTweet)
deriving DecidableEq, Repr

/-- The dict returned by `parse_tweet`.  Note the asymmetry faithful to
the source: `hashtags`, `mentions` and `media` are built with
`",".join(…) or None` (so an empty join becomes `None`), while `urls`
is the bare `",".join(urls)` and is therefore always a string. -/
structure ParsedTweet where
  id : String
  parent_id : Option String
  conversation_id : Option String
  author : String
  url : String
  tweet_text : String
  timestamp : String
  hashtags : Option String
  mentions : Option String
  media : Option String
  urls : String
  location : Option String
  likes : Int
  replies : Int
  retweets : Int
  quotes : Int
deriving DecidableEq, Repr

/-- Python's `",".join(xs) or None`. -/
def joinOrNone (xs : List String) : Option String :=
  let s := String.intercalate "," xs
  if s.isEmpty then none else some s

/-- Model of `item.get("url", None) or item.get("preview_image_url", None)`:
Python `or` falls through on `None` and on the empty string. -/
def mediaLink (item : MediaItem) : Option String :=
  match item.url with
  | some s => if s.isEmpty then item.preview_image_url else some s
  | none => item.preview_image_url

/-- Model of `parse_tweet(tweet, places)`.  Effects are sequenced in the source's
evaluation order: `public_metrics` first, then the entity/geo/media
bookkeeping, the `referenced_tweets` comprehension, and finally the
result-dict literal whose values are evaluated key by key. -/
def parse_tweet (tweet : RawTweet) (places : List (String × String)) :
    Except ParseError ParsedTweet := do
  let pm ← req tweet.public_metrics "public_metrics"
  let hashtags := match tweet.entities with
    | some e => e.hashtags.getD []
    | none => []
  let mentions := match tweet.entities with
    | some e => e.mentions.getD []
    | none => []
  let urls := match tweet.entities with
    | some e => e.urls.getD []
    | none => []
  let location := match tweet.geo with
    | some place_id => (places.find? fun p => p.1 == place_id).map (·.2)
    | none => none
  let media := (tweet.media.getD []).map mediaLink
  let referenced ←
    ((tweet.referenced_tweets.getD [⟨none, none⟩]).filter
        (fun r => r.type == some "replied_to")).mapM
      (fun r => req r.id "id")
  let referenced_tweet := referenced.head?
  let id ← req tweet.id "id"
  let author ← req tweet.author_id "author_id"
  let tweet_text ← req tweet.text "text"
  let timestamp ← req tweet.created_at "created_at"
  let mediaJoined ←
    match media.mapM (fun link => link) with
    | some links => pure (joinOrNone links)
    | none => .error .typeError
  return {
    id := id
    parent_id := referenced_tweet
    conversation_id := tweet.conversation_id
    author := author
    url := "https://twitter.com/" ++ author ++ "/status/" ++ id
    tweet_text := tweet_text
    timestamp := timestamp
    hashtags := joinOrNone hashtags
    mentions := joinOrNone mentions
    media := mediaJoined
    urls := String.intercalate "," urls
    location := location
    likes := pm.like_count.getD 0
    replies := pm.reply_count.getD 0
    retweets := pm.retweet_count.getD 0
    quotes := pm.quote_count.getD 0
  }

/-- Model of `user["public_metrics"]`; both counters are read by direct
indexing (required). -/
structure UserMetrics where
  following_count : Option Int
  followers_count : Option Int
deriving DecidableEq, Repr

/-- A raw user record as `parse_user` reads it. -/
structure RawUser where
  id : Option String
  username : Option String
  verified : Option Bool
  location : Option String
  public_metrics : Option UserMetrics
  created_at : Option String
  description : Option String
deriving DecidableEq, Repr

/-- The dict returned by `parse_user`. -/
structure ParsedUser where
  id : String
  username : String
  verified : Bool
  location : Option String
  following : Int
  followers : Int
  date_joined : String
  bio : String
deriving DecidableEq, Repr

/-- Model of `parse_user(user)`: a direct field mapping; every key except
`location` is accessed with required indexing. -/
def parse_user (user : RawUser) : Except ParseError ParsedUser := do
  let pm ← req user.public_metrics "public_metrics"
  let id ← req user.id "id"
  let username ← req user.username "username"
  let verified ← req user.verified "verified"
  let location := user.location
  let following ← req pm.following_count "following_count"
  let followers ← req pm.followers_count "followers_count"
  let date_joined ← req user.created_at "created_at"
  let bio ← req user.description "description"
  return {
    id := id, username := username, verified := verified,
    location := location, following := following, followers := followers,
    date_joined := date_joined, bio := bio
  }

/-! ### Batch processing (`process_batch_tweets` in main.py) -/

/-- One sentiment prediction `{"label": …, "score": …}` from the
external pipeline. -/
structure SentimentResult where
  label : String
  score : Rat
deriving DecidableEq, Repr

/-- A parsed tweet with the merged `sentiment` / `sentiment_score`
keys added by `process_batch_tweets`. -/
structure EnrichedTweet where
  base : ParsedTweet
  sentiment : String
  sentiment_score : Rat
deriving DecidableEq, Repr

/-- Model of `process_batch_tweets(sentiment_pipeline, tweets, users, places)`:
parses every tweet of the batch (a list comprehension, so the first
uncaught parse exception aborts the whole call), scores the parsed
texts as one batch, zips predictions back onto the records, and parses
the user batch. -/
def process_batch_tweets (pipe : List String → List SentimentResult)
    (tweets : List RawTweet) (users : List RawUser)
    (places : List (String × String)) :
    Except ParseError (List EnrichedTweet × List ParsedUser) := do
  let parsed_tweets ← tweets.mapM (fun t => parse_tweet t places)
  let sentiments := pipe (parsed_tweets.map (·.tweet_text))
  let enriched := (parsed_tweets.zip sentiments).map fun ts =>
    { base := ts.1, sentiment := ts.2.label.toUpper,
      sentiment_score := ts.2.score }
  let parsed_users ← users.mapM parse_user
  return (enriched, parsed_users)

/-! ### The sqlite store (database.py)

Tables are lists of row structures held in rowid order: both `tweets`
and `replies` declare `id INTEGER NOT NULL PRIMARY KEY`, so `id` is the
rowid and a full-table scan visits rows in ascending `id` order.  The
engagement counters are always bound to integers by the pipeline, so
they are modelled as non-optional `Int`. -/

/-- A row of the `tweets` table (the `replies` table has the identical
column list). -/
structure TweetRow where
  id : Int
  parent_id : Option Int
  conversation_id : Option Int
  author : Option Int
  url : Option String
  tweet_text : Option String
  timestamp : Option String
  hashtags : Option String
  mentions : Option String
  urls : Option String
  images : Option Int
  videos : Option Int
  location : Option String
  likes : Int
  replies : Int
  retweets : Int
  quotes : Int
  sentiment : Option String
  sentiment_score : Option Rat
deriving DecidableEq, Repr

/-- A row of the `users` table. -/
structure UserRow where
  id : Int
  username : Option String
  name : Option String
  verified : Option Bool
  location : Option String
  following : Option Int
  followers : Option Int
  date_joined : Option String
  bio : Option String
deriving DecidableEq, Repr

/-- Membership test of an `id` against a table, as in an `IN`-style membership test against a table. -/
def hasId (tbl : List TweetRow) (i : Int) : Bool :=
  tbl.any fun r => r.id == i

/-- One row of `INSERT INTO tweets … ON CONFLICT (id) DO NOTHING`
(`INSERT_TWEET_DML`): a conflicting `id` leaves the table untouched. -/
def insert_tweet_one (tbl : List TweetRow) (r : TweetRow) : List TweetRow :=
  if hasId tbl r.id then tbl else tbl ++ [r]

/-- Model of `Database.insert_tweets`: `executemany` applies the DML to the
batch rows in order (`INSERT_REPLIES_DML` is identical for the
`replies` table). -/
def insert_tweets (tbl : List TweetRow) (batch : List TweetRow) : List TweetRow :=
  batch.foldl insert_tweet_one tbl

/-- One row of `INSERT INTO users … ON CONFLICT (id) DO UPDATE SET …`
(`INSERT_USER_DML`): a conflicting `id` overwrites every non-key column
of the existing row in place. -/
def upsert_user_one (tbl : List UserRow) (u : UserRow) : List UserRow :=
  if tbl.any (fun x => x.id == u.id) then
    tbl.map fun x => if x.id == u.id then u else x
  else
    tbl ++ [u]

/-- Model of `Database.insert_users`: `executemany` of the upsert DML. -/
def insert_users (tbl : List UserRow) (batch : List UserRow) : List UserRow :=
  batch.foldl upsert_user_one tbl

/-- The sum `likes + retweets + quotes`, the ranking key of `TOP_REPLIED_DML`. -/
def engagement (r : TweetRow) : Int :=
  r.likes + r.retweets + r.quotes

/-- A full scan of an `INTEGER PRIMARY KEY` table visits rows in
ascending `id` order. -/
def scanById (tbl : List TweetRow) : List TweetRow :=
  tbl.mergeSort fun a b => decide (a.id ≤ b.id)

/-- Model of `ORDER BY likes + retweets + quotes DESC` over the scan; ties keep
scan order (stable sort model of the engine's ordering). -/
def orderByEngagementDesc (rows : List TweetRow) : List TweetRow :=
  rows.mergeSort fun a b => decide (engagement b ≤ engagement a)

/-- Model of `LIMIT (SELECT CAST(COUNT(*) * :top_percent / 100.0 AS int) FROM
tweets)`: `CAST … AS int` truncates toward zero, which for the
non-negative operand is the floor, i.e. Nat division. -/
def topRepliedLimit (n : Nat) (top_percent : Nat) : Nat :=
  n * top_percent / 100

/-- The inner subquery of `TOP_REPLIED_DML`: the engagement-ranked
prefix of the `tweets` table. -/
def topRepliedRows (tbl : List TweetRow) (top_percent : Nat) : List TweetRow :=
  (orderByEngagementDesc (scanById tbl)).take (topRepliedLimit tbl.length top_percent)

/-- Model of `Database.get_top_replied` / `TOP_REPLIED_DML`: project the ranked
prefix to `(id, conversation_id)` pairs; the outer `SELECT DISTINCT` is
modelled as order-preserving deduplication. -/
def get_top_replied (tbl : List TweetRow) (top_percent : Nat) :
    List (Int × Option Int) :=
  ((topRepliedRows tbl top_percent).map fun r => (r.id, r.conversation_id)).dedup

/-- Model of `MISSING_CONVERSATION_TWEETS_DML`: the distinct `conversation_id`
values of `replies` rows whose `conversation_id` is not among the
`tweets` ids.  A SQL `NULL NOT IN (…)` predicate is never true, so rows
with absent `conversation_id` are dropped (the `filterMap`). -/
def missing_conversation_tweets (tweets replies : List TweetRow) : List Int :=
  ((replies.filterMap (·.conversation_id)).filter
    (fun c => !(tweets.any fun t => t.id == c))).dedup

/-- Model of `Database.get_paged_query`: repeated `cursor.fetchmany(batch_size)`
until it returns an empty page, which is never yielded.  With
`batch_size = 0`, `fetchmany` returns `[]` immediately and nothing is
yielded. -/
def get_paged_query (rows : List α) (batch_size : Nat) : List (List α) :=
  match rows, batch_size with
  | [], _ => []
  | _ :: _, 0 => []
  | r :: rs, bs + 1 =>
      (r :: rs).take (bs + 1) :: get_paged_query (rs.drop bs) (bs + 1)
termination_by rows.length
decreasing_by
  simp only [List.length_drop, List.length_cons]
  omega

/-! ### Dictionary keys vs. bind parameters

The key lists below transcribe, in order, the keys of the dict literal
returned by `parse_tweet`, the keys added by `process_batch_tweets`,
and the named parameters bound by `INSERT_TWEET_DML`. -/

/-- The keys of the dict returned by `parse_tweet`. -/
def parse_tweet_keys : List String :=
  ["id", "parent_id", "conversation_id", "author", "url", "tweet_text",
   "timestamp", "hashtags", "mentions", "media", "urls", "location",
   "likes", "replies", "retweets", "quotes"]

/-- The keys `process_batch_tweets` merges onto each parsed tweet. -/
def process_batch_added_keys : List String :=
  ["sentiment", "sentiment_score"]

/-- The named parameters of `INSERT_TWEET_DML`, which
`Database.insert_tweets` binds from each batch dict. -/
def insert_tweet_params : List String :=
  ["id", "parent_id", "conversation_id", "author", "url", "tweet_text",
   "timestamp", "hashtags", "mentions", "urls", "images", "videos",
   "location", "likes", "replies", "retweets", "quotes", "sentiment",
   "sentiment_score"]

/-! ### Concrete inputs used by claim theorems and witnesses -/

/-- A first page carrying two tweets and a continuation token. -/
def pageOne : Page := ⟨[1, 2], [10], [], some "tok1"⟩

/-- A terminal second page. -/
def pageTwo : Page := ⟨[3], [11], [], none⟩

/-- A response script whose second (mid-pagination) request is rejected
with HTTP 429 (`remaining_time = 5`). -/
def rateLimitScript : List ApiResp :=
  [.ok pageOne, .rateLimited 5, .ok pageTwo]

/-- First of three one-tweet pages. -/
def onePageA : Page := ⟨[1], [], [], some "tokA"⟩

/-- Second of three one-tweet pages. -/
def onePageB : Page := ⟨[2], [], [], some "tokB"⟩

/-- Terminal third one-tweet page. -/
def onePageC : Page := ⟨[3], [], [], none⟩

/-- A mocked 3-page response sequence, one item per page. -/
def threePageScript : List ApiResp := [.ok onePageA, .ok onePageB, .ok onePageC]

/-- Sample engagement counters. -/
def metricsA : PublicMetrics := ⟨some 3, some 1, some 2, some 0⟩

/-- A raw tweet with all required fields but no `entities` block. -/
def tweetNoEntities : RawTweet :=
  ⟨some "100", some "7", some "hello", some "2022-01-01T00:00:00Z",
   some "100", some metricsA, none, none, none, none⟩

/-- A raw tweet whose entities hold one hashtag and two urls, one
matching the photo-preview pattern and one the video pattern. -/
def tweetMediaUrls : RawTweet :=
  ⟨some "1", some "u", some "txt", some "2022", some "1", some metricsA,
   some ⟨some ["thetag"], none,
     some ["https://twitter.com/u/status/1/photo/1",
           "https://twitter.com/u/status/1/video/1"]⟩,
   none, none, none⟩

/-- A raw tweet missing the required `text` field. -/
def tweetNoText : RawTweet :=
  ⟨some "2", some "u", none, some "2022", none, some metricsA,
   none, none, none, none⟩

/-- A raw user missing the required `id` field. -/
def userNoId : RawUser :=
  ⟨none, some "u", some false, none, some ⟨some 1, some 2⟩,
   some "2020", some "bio"⟩

/-- A constant sentiment pipeline for batch tests. -/
def constPipe : List String → List SentimentResult :=
  fun texts => texts.map fun _ => ⟨"positive", 1⟩

/-- A `tweets`/`replies` table row with the given id, engagement
counters and conversation id; all other columns null. -/
def sampleRow (i : Int) (likes retweets quotes : Int) (conv : Option Int) :
    TweetRow :=
  ⟨i, none, conv, none, none, none, none, none, none, none, none, none,
   none, likes, 0, retweets, quotes, none, none⟩

/-- A four-row `tweets` table with an engagement tie between ids 1
and 2. -/
def exampleTable : List TweetRow :=
  [sampleRow 1 5 0 0 (some 1), sampleRow 2 5 0 0 (some 2),
   sampleRow 3 1 0 0 (some 3), sampleRow 4 9 0 0 (some 4)]

/-- A `users` table row with the given id and username. -/
def sampleUser (i : Int) (uname : String) : UserRow :=
  ⟨i, some uname, none, none, none, none, none, none, none⟩

/-! ### Claim theorems -/

/-- C1: when a mid-pagination page request is rejected with HTTP 429,
`search` does suspend for `remaining_time + 1` seconds, but it does not
replay the request before yielding: faithful to the missing re-issue in
the loop's `except` arm, the page yielded right after the suspension is
the stale previous page (`pageOne` again), not the fresh response
`pageTwo`, which only arrives one yield later. -/
theorem c1_rate_limit_mid_pagination_yields_stale_page :
    search rateLimitScript none =
      [.page pageOne, .sleep 6, .page pageOne, .page pageTwo] ∧
    pageOne ≠ pageTwo := by
  decide

/-- C2 counterexample: with a mocked 3-page response sequence of one
item per page and an item limit of 1, the cursor does not halt once
items emitted (1) reach the limit (1); it issues a further request and
yields a second page. -/
theorem c2_counterexample_limit_reached_still_requests :
    yieldedPages (search threePageScript (some 1)) = [onePageA, onePageB] ∧
    (yieldedPages (search threePageScript (some 1))).length ≠ 1 := by
  decide

/-- C2 amended: the termination check before each page request uses the
strict comparison `limit < tweet_count`, so the cursor stops only once
the number of items already emitted strictly exceeds the limit; with
the mocked 3-page one-item-per-page sequence and a limit of 1 it yields
exactly two pages and never issues the third request. -/
theorem c2_amended_strict_limit_check :
    (∀ (l : Int) (script : List ApiResp) (res : Page) (count : Nat),
        l ≠ 0 → l < (count : Int) → searchLoop (some l) script res count = []) ∧
    yieldedPages (search threePageScript (some 1)) = [onePageA, onePageB] := by
  constructor
  · intro l script res count h0 hlt
    cases script with
    | nil => rfl
    | cons r rest =>
      have hbreak : limitBreak (some l) count = true := by
        simp [limitBreak, h0, hlt]
      cases htok : res.next_token with
      | none => simp [searchLoop, htok]
      | some t => simp [searchLoop, htok, hbreak]
  · decide

/-- C2 witness. -/
theorem c2_amended_strict_limit_check_witness :
    searchLoop (some 1) [ApiResp.ok onePageA] onePageA 2 = [] ∧
    yieldedPages (search threePageScript (some 1)) = [onePageA, onePageB] :=
  ⟨c2_amended_strict_limit_check.1 1 [ApiResp.ok onePageA] onePageA 2
      (by decide) (by decide),
   c2_amended_strict_limit_check.2⟩

/-- C5: for a parsed post with empty hashtag, mention and url
sequences, `hashtags` and `mentions` are serialized to null, but `urls`
is serialized to the empty string (the source joins `urls` without the
`or None` guard used for the other fields), contradicting the claim for
the `urls` field. -/
theorem c5_empty_urls_stored_as_empty_string :
    (parse_tweet tweetNoEntities []).map
        (fun r => (r.hashtags, r.mentions, r.urls)) =
      .ok (none, none, "") := by
  decide

/-- C6: `parse_tweet` computes no media counts at all — neither an
`images` nor a `videos` key exists among the keys it returns or the keys
`process_batch_tweets` adds, even though `INSERT_TWEET_DML` requires
both as bind parameters; on a raw post with one photo-pattern URL and
one video-pattern URL the two URLs are merely retained verbatim in
`urls`. -/
theorem c6_media_counts_never_computed :
    ("images" ∈ insert_tweet_params ∧ "videos" ∈ insert_tweet_params) ∧
    ("images" ∉ parse_tweet_keys ++ process_batch_added_keys ∧
     "videos" ∉ parse_tweet_keys ++ process_batch_added_keys) ∧
    (parse_tweet tweetMediaUrls []).map (fun r => (r.urls, r.hashtags)) =
      .ok ("https://twitter.com/u/status/1/photo/1,https://twitter.com/u/status/1/video/1",
           some "thetag") := by
  decide

/-- C10: for a positive batch size, the paged-iteration generator
yields only non-empty chunks of length at most `batch_size` whose
in-order concatenation is the full result sequence; exhaustion is
signalled solely by the generator stopping, never by an empty chunk. -/
theorem c10_paged_query_chunking {α : Type} :
    ∀ (rows : List α) (batch_size : Nat), 0 < batch_size →
      (∀ c ∈ get_paged_query rows batch_size, c ≠ [] ∧ c.length ≤ batch_size) ∧
      (get_paged_query rows batch_size).flatten = rows := by
  intro rows batch_size
  induction rows, batch_size using get_paged_query.induct with
  | case1 bs =>
    intro _
    refine ⟨?_, ?_⟩ <;> simp [get_paged_query]
  | case2 =>
    intro h
    omega
  | case3 r rs bs ih =>
    intro _
    have ih' := ih (Nat.succ_pos bs)
    constructor
    · intro c hc
      rw [get_paged_query] at hc
      rcases List.mem_cons.mp hc with rfl | hc'
      · refine ⟨by simp, ?_⟩
        simp
      · exact ih'.1 c hc'
    · rw [get_paged_query]
      rw [List.flatten_cons, ih'.2]
      have : List.drop (bs + 1) (r :: rs) = rs.drop bs := by simp
      calc List.take (bs + 1) (r :: rs) ++ rs.drop bs
          = List.take (bs + 1) (r :: rs) ++ List.drop (bs + 1) (r :: rs) := by
            rw [this]
        _ = r :: rs := List.take_append_drop _ _

/-- C10 witness. -/
theorem c10_paged_query_chunking_witness :
    (∀ c ∈ get_paged_query [1, 2, 3, 4, 5] 2, c ≠ [] ∧ c.length ≤ 2) ∧
    (get_paged_query [1, 2, 3, 4, 5] 2).flatten = [1, 2, 3, 4, 5] :=
  c10_paged_query_chunking [1, 2, 3, 4, 5] 2 (by decide)

/-- Inserting one row never removes an id already present, and adds the
row's own id. -/
theorem hasId_insert_tweet_one (tbl : List TweetRow) (r : TweetRow) (i : Int) :
    hasId (insert_tweet_one tbl r) i = (hasId tbl i || r.id == i) := by
  unfold insert_tweet_one
  by_cases h : hasId tbl r.id
  · rw [if_pos h]
    by_cases hri : r.id == i
    · have : r.id = i := by simpa using hri
      subst this
      simp [h]
    · simp [hri]
  · rw [if_neg h]
    simp [hasId, List.any_append]

/-- Id membership after a batch insert. -/
theorem hasId_insert_tweets (batch : List TweetRow) (tbl : List TweetRow) (i : Int) :
    hasId (insert_tweets tbl batch) i
      = (hasId tbl i || batch.any fun r => r.id == i) := by
  induction batch generalizing tbl with
  | nil => simp [insert_tweets]
  | cons r rest ih =>
    show hasId (insert_tweets (insert_tweet_one tbl r) rest) i = _
    rw [ih, hasId_insert_tweet_one]
    simp [Bool.or_assoc]

/-- A batch whose every id is already present does nothing. -/
theorem insert_tweets_of_all_present {batch tbl : List TweetRow}
    (h : ∀ r ∈ batch, hasId tbl r.id = true) :
    insert_tweets tbl batch = tbl := by
  induction batch with
  | nil => rfl
  | cons r rest ih =>
    show insert_tweets (insert_tweet_one tbl r) rest = tbl
    have hr : insert_tweet_one tbl r = tbl := by
      unfold insert_tweet_one
      rw [if_pos (h r (List.mem_cons_self r rest))]
    rw [hr]
    exact ih fun x hx => h x (List.mem_cons_of_mem r hx)

/-- C7: tweet insertion is insert-or-ignore keyed by id — inserting a
batch twice leaves the table identical to inserting it once, and
inserting a row whose id is already stored is a no-op that leaves the
table (and hence the first-written values) unchanged. -/
theorem c7_insert_tweets_idempotent :
    (∀ (tbl batch : List TweetRow),
        insert_tweets (insert_tweets tbl batch) batch = insert_tweets tbl batch) ∧
    (∀ (tbl : List TweetRow) (r : TweetRow),
        hasId tbl r.id = true → insert_tweet_one tbl r = tbl) := by
  constructor
  · intro tbl batch
    apply insert_tweets_of_all_present
    intro r hr
    rw [hasId_insert_tweets]
    have : batch.any (fun x => x.id == r.id) = true :=
      List.any_eq_true.mpr ⟨r, hr, by simp⟩
    simp [this]
  · intro tbl r h
    unfold insert_tweet_one
    rw [if_pos h]

/-- C7 witness. -/
theorem c7_insert_tweets_idempotent_witness :
    insert_tweets (insert_tweets [] exampleTable) exampleTable
      = insert_tweets [] exampleTable ∧
    insert_tweet_one [sampleRow 1 5 0 0 none] (sampleRow 1 5 0 0 none)
      = [sampleRow 1 5 0 0 none] :=
  ⟨c7_insert_tweets_idempotent.1 [] exampleTable,
   c7_insert_tweets_idempotent.2 [sampleRow 1 5 0 0 none]
     (sampleRow 1 5 0 0 none) (by decide)⟩

/-- Membership in the missing-conversation-roots result. -/
theorem mem_missing_conversation_tweets
    (tweets replies : List TweetRow) (c : Int) :
    c ∈ missing_conversation_tweets tweets replies ↔
      (∃ r ∈ replies, r.conversation_id = some c) ∧
        ¬∃ t ∈ tweets, t.id = c := by
  unfold missing_conversation_tweets
  rw [List.mem_dedup, List.mem_filter, List.mem_filterMap]
  constructor
  · rintro ⟨⟨r, hr, hrc⟩, hnot⟩
    refine ⟨⟨r, hr, hrc⟩, ?_⟩
    rintro ⟨t, ht, hte⟩
    have : tweets.any (fun x => x.id == c) = true :=
      List.any_eq_true.mpr ⟨t, ht, by simp [hte]⟩
    simp [this] at hnot
  · rintro ⟨⟨r, hr, hrc⟩, hnot⟩
    refine ⟨⟨r, hr, hrc⟩, ?_⟩
    have : tweets.any (fun x => x.id == c) = false := by
      rw [List.any_eq_false]
      intro t ht hte
      exact hnot ⟨t, ht, by simpa using hte⟩
    show (!(tweets.any fun t => t.id == c)) = true
    rw [this]
    rfl

/-- C9: the missing-conversation-roots query returns exactly the
distinct `conversation_id` values appearing among stored replies whose
id is absent from the stored top-level posts, and it returns the empty
result once every referenced `conversation_id` has a matching stored
post id. -/
theorem c9_missing_conversation_roots :
    (∀ (tweets replies : List TweetRow) (c : Int),
        c ∈ missing_conversation_tweets tweets replies ↔
          (∃ r ∈ replies, r.conversation_id = some c) ∧
            ¬∃ t ∈ tweets, t.id = c) ∧
    (∀ (tweets replies : List TweetRow),
        (missing_conversation_tweets tweets replies).Nodup) ∧
    (∀ (tweets replies : List TweetRow),
        (∀ r ∈ replies, ∀ c, r.conversation_id = some c →
            ∃ t ∈ tweets, t.id = c) →
        missing_conversation_tweets tweets replies = []) := by
  refine ⟨mem_missing_conversation_tweets, ?_, ?_⟩
  · intro tweets replies
    exact List.nodup_dedup _
  · intro tweets replies h
    rw [List.eq_nil_iff_forall_not_mem]
    intro c hc
    rw [mem_missing_conversation_tweets] at hc
    obtain ⟨⟨r, hr, hrc⟩, hnot⟩ := hc
    exact hnot (h r hr c hrc)

/-- C9 witness. -/
theorem c9_missing_conversation_roots_witness :
    (5 ∈ missing_conversation_tweets [sampleRow 1 0 0 0 none]
        [sampleRow 10 0 0 0 (some 5), sampleRow 11 0 0 0 (some 1)] ↔
      (∃ r ∈ [sampleRow 10 0 0 0 (some 5), sampleRow 11 0 0 0 (some 1)],
          r.conversation_id = some 5) ∧
        ¬∃ t ∈ [sampleRow 1 0 0 0 none], t.id = 5) ∧
    missing_conversation_tweets [sampleRow 1 0 0 0 none]
      [sampleRow 11 0 0 0 (some 1)] = [] :=
  ⟨c9_missing_conversation_roots.1 _ _ 5,
   c9_missing_conversation_roots.2.2 [sampleRow 1 0 0 0 none]
     [sampleRow 11 0 0 0 (some 1)]
     (by
       intro r hr c hc
       rw [List.mem_singleton] at hr
       subst hr
       have h1 : (1 : Int) = c := by simpa [sampleRow] using hc
       subst h1
       exact ⟨sampleRow 1 0 0 0 none, List.mem_singleton.mpr rfl, rfl⟩)⟩

/-- Lookup of a user row by primary key (`SELECT … WHERE id = i`). -/
def findUserById (tbl : List UserRow) (i : Int) : Option UserRow :=
  tbl.find? fun u => u.id == i

/-- The last row of a batch carrying id `i`: the parameters whose
upsert is applied last by `executemany` and therefore wins. -/
def lastUserWithId (batch : List UserRow) (i : Int) : Option UserRow :=
  (batch.filter fun u => u.id == i).getLast?

/-- After upserting `u`, looking up `u.id` yields `u`. -/
theorem findUserById_upsert_self (tbl : List UserRow) (u : UserRow) :
    findUserById (upsert_user_one tbl u) u.id = some u := by
  unfold upsert_user_one findUserById
  by_cases h : tbl.any (fun x => x.id == u.id)
  · rw [if_pos h]
    induction tbl with
    | nil => simp at h
    | cons x xs ih =>
      rw [List.map_cons]
      by_cases hx : (x.id == u.id) = true
      · rw [if_pos hx, List.find?_cons_of_pos _ (by simp)]
      · rw [if_neg hx, List.find?_cons_of_neg _ (by simpa using hx)]
        apply ih
        rw [List.any_cons] at h
        simp_all
  · rw [if_neg h]
    induction tbl with
    | nil =>
      rw [List.nil_append, List.find?_cons_of_pos _ (by simp)]
    | cons x xs ih =>
      rw [List.any_cons] at h
      rw [List.cons_append, List.find?_cons_of_neg _ (by simp_all)]
      exact ih (by simp_all)

/-- Upserting `u` does not change lookups of other ids. -/
theorem findUserById_upsert_other (tbl : List UserRow) (u : UserRow) (i : Int)
    (hne : (u.id == i) = false) :
    findUserById (upsert_user_one tbl u) i = findUserById tbl i := by
  unfold upsert_user_one findUserById
  by_cases h : tbl.any (fun x => x.id == u.id)
  · rw [if_pos h]
    clear h
    induction tbl with
    | nil => simp
    | cons x xs ih =>
      rw [List.map_cons]
      by_cases hx : (x.id == u.id) = true
      · have hxi : (x.id == i) = false := by
          have : x.id = u.id := by simpa using hx
          simp_all
        rw [if_pos hx,
          List.find?_cons_of_neg _ (by simp [hne]),
          List.find?_cons_of_neg _ (by simp [hxi])]
        exact ih
      · rw [if_neg hx]
        by_cases hxi : (x.id == i) = true
        · rw [List.find?_cons_of_pos _ (by simpa using hxi),
            List.find?_cons_of_pos _ (by simpa using hxi)]
        · rw [List.find?_cons_of_neg _ (by simpa using hxi),
            List.find?_cons_of_neg _ (by simpa using hxi)]
          exact ih
  · rw [if_neg h]
    induction tbl with
    | nil =>
      rw [List.nil_append, List.find?_cons_of_neg _ (by simp [hne])]
    | cons x xs ih =>
      rw [List.any_cons] at h
      rw [List.cons_append]
      by_cases hxi : (x.id == i) = true
      · rw [List.find?_cons_of_pos _ (by simpa using hxi),
          List.find?_cons_of_pos _ (by simpa using hxi)]
      · rw [List.find?_cons_of_neg _ (by simpa using hxi),
          List.find?_cons_of_neg _ (by simpa using hxi)]
        exact ih (by simp_all)

/-- A batch containing no row with id `i` leaves lookups of `i`
unchanged. -/
theorem findUserById_insert_users_of_not_mem
    (batch : List UserRow) (tbl : List UserRow) (i : Int)
    (h : ∀ u ∈ batch, (u.id == i) = false) :
    findUserById (insert_users tbl batch) i = findUserById tbl i := by
  induction batch generalizing tbl with
  | nil => rfl
  | cons u rest ih =>
    show findUserById (insert_users (upsert_user_one tbl u) rest) i = _
    rw [ih (upsert_user_one tbl u) fun x hx => h x (List.mem_cons_of_mem u hx)]
    exact findUserById_upsert_other tbl u i (h u (List.mem_cons_self u rest))

/-- After a batch upsert, the lookup of any id present in the batch
returns the batch's last row with that id. -/
theorem findUserById_insert_users (batch : List UserRow) (tbl : List UserRow)
    (i : Int) (h : batch.any (fun u => u.id == i) = true) :
    findUserById (insert_users tbl batch) i = lastUserWithId batch i := by
  induction batch generalizing tbl with
  | nil => simp at h
  | cons u rest ih =>
    show findUserById (insert_users (upsert_user_one tbl u) rest) i = _
    by_cases hrest : rest.any (fun x => x.id == i) = true
    · rw [ih (upsert_user_one tbl u) hrest]
      unfold lastUserWithId
      rw [List.filter_cons]
      by_cases hu : (u.id == i)
      · rw [if_pos hu]
        have hne : rest.filter (fun x => x.id == i) ≠ [] := by
          rw [ne_eq, List.filter_eq_nil_iff]
          push_neg
          obtain ⟨x, hx, hxi⟩ := List.any_eq_true.mp hrest
          exact ⟨x, hx, by simp_all⟩
        obtain ⟨y, ys, hys⟩ := List.exists_cons_of_ne_nil hne
        rw [hys, List.getLast?_cons_cons]
      · rw [if_neg hu]
    · have hu : (u.id == i) = true := by
        rw [List.any_cons] at h
        simp_all
      have hrest' : ∀ x ∈ rest, (x.id == i) = false := by
        have hall : rest.any (fun x => x.id == i) = false := by
          simpa using hrest
        intro x hx
        simpa using List.any_eq_false.mp hall x hx
      rw [findUserById_insert_users_of_not_mem rest (upsert_user_one tbl u) i hrest']
      have : i = u.id := by simpa using (beq_iff_eq.mp hu).symm
      subst this
      rw [findUserById_upsert_self]
      unfold lastUserWithId
      rw [List.filter_cons, if_pos hu,
        List.filter_eq_nil_iff.mpr (by
          intro x hx
          simpa using hrest' x hx)]
      rfl

/-- C8: user insertion is an upsert — after inserting a first batch and
then a second batch, the stored row for every id occurring in the
second batch equals the second batch's (last) row for that id, whatever
the first batch wrote. -/
theorem c8_insert_users_upsert_wins :
    ∀ (tbl b1 b2 : List UserRow) (i : Int),
      b2.any (fun u => u.id == i) = true →
      findUserById (insert_users (insert_users tbl b1) b2) i
        = lastUserWithId b2 i :=
  fun _ _ b2 i h => findUserById_insert_users b2 _ i h

/-- C8 witness: id 1 is first inserted with username "old", then
upserted with username "new"; the lookup returns the second row. -/
theorem c8_insert_users_upsert_wins_witness :
    findUserById
        (insert_users (insert_users [] [sampleUser 1 "old"]) [sampleUser 1 "new"]) 1
      = lastUserWithId [sampleUser 1 "new"] 1 :=
  c8_insert_users_upsert_wins [] [sampleUser 1 "old"] [sampleUser 1 "new"] 1
    (by decide)

/-- Peeling a successful `Except` bind. -/
theorem exceptBind_ok {ε α β : Type} {e : Except ε α} {f : α → Except ε β}
    {b : β} (h : (e >>= f) = Except.ok b) :
    ∃ a, e = Except.ok a ∧ f a = Except.ok b := by
  cases e with
  | error err => simp [Bind.bind, Except.bind] at h
  | ok a => exact ⟨a, rfl, by simpa [Bind.bind, Except.bind] using h⟩

/-- A successful required-key access means the key was present. -/
theorem req_ok {α : Type} {o : Option α} {k : String} {a : α}
    (h : req o k = Except.ok a) : o = some a := by
  cases o with
  | none => simp [req] at h
  | some b => simpa [req] using h

/-- If an `Except`-valued `mapM` over a list succeeds, it succeeded on
every element. -/
theorem mapM_ok_forall {ε α β : Type} {f : α → Except ε β} :
    ∀ {l : List α} {out : List β}, l.mapM f = Except.ok out →
      ∀ a ∈ l, ∃ b, f a = Except.ok b := by
  intro l
  induction l with
  | nil => intro out _ a ha; exact absurd ha (List.not_mem_nil a)
  | cons x xs ih =>
    intro out h a ha
    rw [List.mapM_cons] at h
    obtain ⟨b, hb, h⟩ := exceptBind_ok h
    obtain ⟨bs, hbs, -⟩ := exceptBind_ok h
    rcases List.mem_cons.mp ha with rfl | ha'
    · exact ⟨b, hb⟩
    · exact ih hbs a ha'

/-- C4 counterexample: a batch whose first record is missing the
required `text` field makes the whole `process_batch_tweets` call fail
with the key error — the second (well-formed) record is not parsed, so
the caller does not skip the bad record and continue the batch. -/
theorem c4_counterexample_batch_aborts :
    process_batch_tweets constPipe [tweetNoText, tweetNoEntities] [] []
      = Except.error (ParseError.keyError "text") := by
  decide

/-- C4 amended: a raw post missing a required field (id, author id or
text) is rejected by `parse_tweet` with a structured parse error rather
than a partially-populated record, and a raw user missing its id is
rejected by `parse_user` likewise; but the batch caller does not skip
such a record — `process_batch_tweets` succeeds only when every record
of the batch parses, so one bad record aborts the whole batch call. -/
theorem c4_amended_reject_but_abort_batch :
    (∀ (t : RawTweet) (places : List (String × String)),
        t.id = none ∨ t.author_id = none ∨ t.text = none →
        (parse_tweet t places).isOk = false) ∧
    (∀ u : RawUser, u.id = none → (parse_user u).isOk = false) ∧
    (∀ (pipe : List String → List SentimentResult) (tweets : List RawTweet)
        (users : List RawUser) (places : List (String × String))
        (out : List EnrichedTweet × List ParsedUser),
        process_batch_tweets pipe tweets users places = Except.ok out →
        ∀ t ∈ tweets, ∃ r, parse_tweet t places = Except.ok r) := by
  refine ⟨?_, ?_, ?_⟩
  · intro t places hmiss
    cases hpt : parse_tweet t places with
    | error e => rfl
    | ok r =>
      exfalso
      unfold parse_tweet at hpt
      obtain ⟨pm, _, hpt⟩ := exceptBind_ok hpt
      obtain ⟨refs, _, hpt⟩ := exceptBind_ok hpt
      obtain ⟨idv, hid, hpt⟩ := exceptBind_ok hpt
      obtain ⟨auv, hau, hpt⟩ := exceptBind_ok hpt
      obtain ⟨txv, htx, -⟩ := exceptBind_ok hpt
      rcases hmiss with h | h | h
      · rw [req_ok hid] at h; exact Option.some_ne_none idv h
      · rw [req_ok hau] at h; exact Option.some_ne_none auv h
      · rw [req_ok htx] at h; exact Option.some_ne_none txv h
  · intro u hmiss
    cases hpu : parse_user u with
    | error e => rfl
    | ok r =>
      exfalso
      unfold parse_user at hpu
      obtain ⟨pm, _, hpu⟩ := exceptBind_ok hpu
      obtain ⟨idv, hid, -⟩ := exceptBind_ok hpu
      rw [req_ok hid] at hmiss
      exact Option.some_ne_none idv hmiss
  · intro pipe tweets users places out h t ht
    unfold process_batch_tweets at h
    obtain ⟨parsed, hparsed, -⟩ := exceptBind_ok h
    exact mapM_ok_forall hparsed t ht

/-- C4 witness. -/
theorem c4_amended_reject_but_abort_batch_witness :
    (parse_tweet tweetNoText []).isOk = false ∧
    (parse_user userNoId).isOk = false ∧
    ∃ r, parse_tweet tweetNoEntities [] = Except.ok r :=
  ⟨c4_amended_reject_but_abort_batch.1 tweetNoText []
      (Or.inr (Or.inr rfl)),
   c4_amended_reject_but_abort_batch.2.1 userNoId rfl,
   c4_amended_reject_but_abort_batch.2.2 constPipe [tweetNoEntities] [] [] _
     rfl tweetNoEntities (List.mem_singleton.mpr rfl)⟩

/-- The deterministic ranking order of the top-engagement query:
strictly greater engagement first, ties by ascending primary-key id
(the stable sort over the id-ordered scan keeps scan order on ties). -/
def rankedBefore (a b : TweetRow) : Prop :=
  engagement b < engagement a ∨
    (engagement a = engagement b ∧ a.id < b.id)

/-- Transitivity of the engagement comparator. -/
theorem engagement_le_trans :
    ∀ a b c : TweetRow, decide (engagement b ≤ engagement a) = true →
      decide (engagement c ≤ engagement b) = true →
      decide (engagement c ≤ engagement a) = true := by
  intro a b c hab hbc
  simp only [decide_eq_true_eq] at hab hbc ⊢
  omega

/-- Totality of the engagement comparator. -/
theorem engagement_le_total :
    ∀ a b : TweetRow, (decide (engagement b ≤ engagement a) ||
      decide (engagement a ≤ engagement b)) = true := by
  intro a b
  simp only [Bool.or_eq_true, decide_eq_true_eq]
  omega

/-- Transitivity of the id comparator. -/
theorem id_le_trans :
    ∀ a b c : TweetRow, decide (a.id ≤ b.id) = true →
      decide (b.id ≤ c.id) = true → decide (a.id ≤ c.id) = true := by
  intro a b c hab hbc
  simp only [decide_eq_true_eq] at hab hbc ⊢
  omega

/-- Totality of the id comparator. -/
theorem id_le_total :
    ∀ a b : TweetRow, (decide (a.id ≤ b.id) || decide (b.id ≤ a.id)) = true := by
  intro a b
  simp only [Bool.or_eq_true, decide_eq_true_eq]
  omega

/-- With distinct ids, the table scan is strictly increasing in id. -/
theorem scanById_pairwise_lt {tbl : List TweetRow}
    (h : (tbl.map (fun r => r.id)).Nodup) :
    (scanById tbl).Pairwise fun a b => a.id < b.id := by
  have hle : (scanById tbl).Pairwise fun a b => a.id ≤ b.id :=
    (List.sorted_mergeSort id_le_trans id_le_total tbl).imp
      fun hab => of_decide_eq_true hab
  have hperm : List.Perm (scanById tbl) tbl := List.mergeSort_perm tbl _
  have hnd : ((scanById tbl).map (fun r => r.id)).Nodup :=
    ((hperm.map (fun r => r.id)).nodup_iff).mpr h
  have hne : (scanById tbl).Pairwise fun a b => a.id ≠ b.id :=
    List.pairwise_map.mp hnd
  exact (hle.and hne).imp fun hab => lt_of_le_of_ne hab.1 hab.2

/-- Two rows of a strictly-id-sorted list form a sublist pair in id
order. -/
theorem pair_sublist_of_pairwise_lt :
    ∀ {l : List TweetRow} {a b : TweetRow},
      l.Pairwise (fun x y => x.id < y.id) → a ∈ l → b ∈ l → a.id < b.id →
      List.Sublist [a, b] l := by
  intro l
  induction l with
  | nil => intro a b _ ha _ _; exact absurd ha (List.not_mem_nil a)
  | cons x xs ih =>
    intro a b hp ha hb hab
    obtain ⟨hx, hxs⟩ := List.pairwise_cons.mp hp
    rcases List.mem_cons.mp ha with rfl | ha'
    · rcases List.mem_cons.mp hb with rfl | hb'
      · exact absurd hab (lt_irrefl _)
      · exact List.Sublist.cons₂ a (List.singleton_sublist.mpr hb')
    · rcases List.mem_cons.mp hb with rfl | hb'
      · exact absurd (hx a ha') (by omega)
      · exact List.Sublist.cons x (ih hxs ha' hb' hab)

/-- A list of rows with distinct ids that is sorted by descending
engagement, and in which every engagement-tied pair with ascending ids
occurs as a sublist in that order, is sorted by `rankedBefore`. -/
theorem pairwise_rankedBefore_of_stable :
    ∀ {rows : List TweetRow},
      (rows.map (fun r => r.id)).Nodup →
      rows.Pairwise (fun a b => engagement b ≤ engagement a) →
      (∀ a b, a ∈ rows → b ∈ rows → engagement a = engagement b →
        a.id < b.id → List.Sublist [a, b] rows) →
      rows.Pairwise rankedBefore := by
  intro rows
  induction rows with
  | nil => intro _ _ _; exact List.Pairwise.nil
  | cons x xs ih =>
    intro hnd hsort hstab
    obtain ⟨hx, hxs⟩ := List.pairwise_cons.mp hsort
    rw [List.map_cons] at hnd
    have hnd' := List.nodup_cons.mp hnd
    refine List.Pairwise.cons ?_ (ih hnd'.2 hxs ?_)
    · intro b hb
      have hle := hx b hb
      rcases lt_or_eq_of_le hle with hlt | heq
      · exact Or.inl hlt
      · have hidne : x.id ≠ b.id := by
          intro hcontra
          exact hnd'.1 (by
            rw [hcontra]
            exact List.mem_map_of_mem (fun r => r.id) hb)
        rcases lt_or_gt_of_ne hidne with h1 | h1
        · exact Or.inr ⟨heq.symm, h1⟩
        · exfalso
          have hsub := hstab b x (List.mem_cons_of_mem x hb)
            (List.mem_cons_self x xs) heq h1
          cases hsub with
          | cons _ h' =>
            have hxmem : x ∈ xs :=
              h'.subset (List.mem_cons_of_mem b (List.mem_cons_self x []))
            exact hnd'.1 (List.mem_map_of_mem (fun r => r.id) hxmem)
          | cons₂ _ h' =>
            exact absurd h1 (lt_irrefl _)
    · intro a b ha hb heq hlt
      have hsub := hstab a b (List.mem_cons_of_mem x ha)
        (List.mem_cons_of_mem x hb) heq hlt
      cases hsub with
      | cons _ h' => exact h'
      | cons₂ _ h' =>
        exact absurd (List.mem_map_of_mem (fun r => r.id) ha) hnd'.1

/-- C3 counterexample: `CAST(COUNT(*) * p / 100.0 AS int)` truncates,
so a one-row table queried with `p = 50` returns no rows, whereas
`ceil(N*p/100) = ceil(1*50/100) = 1` would require one row. -/
theorem c3_counterexample_cast_truncates :
    get_top_replied [sampleRow 1 5 0 0 (some 1)] 50 = [] ∧
    (1 * 50 + 99) / 100 = 1 := by
  constructor
  · simp [get_top_replied, topRepliedRows, topRepliedLimit]
  · norm_num

/-- C3 amended: for a table with distinct primary-key ids,
`get_top_replied p` returns exactly `floor(N*p/100)` distinct
`(id, conversation_id)` pairs when `p ≤ 100` (all `N` when `p ≥ 100`,
none when `p = 0`), projected from the engagement-ranked prefix of the
table, which is ordered by strictly descending `likes+retweets+quotes`
with ties broken deterministically by ascending id. -/
theorem c3_amended_floor_count_and_ranking :
    ∀ (tbl : List TweetRow) (p : Nat),
      (tbl.map (fun r => r.id)).Nodup →
      ((p ≤ 100 → (get_top_replied tbl p).length = tbl.length * p / 100) ∧
       (100 ≤ p → (get_top_replied tbl p).length = tbl.length) ∧
       get_top_replied tbl 0 = [] ∧
       get_top_replied tbl p
         = (topRepliedRows tbl p).map (fun r => (r.id, r.conversation_id)) ∧
       (topRepliedRows tbl p).Pairwise rankedBefore ∧
       (get_top_replied tbl p).Nodup) := by
  intro tbl p hnd
  have hperm1 : List.Perm (scanById tbl) tbl := List.mergeSort_perm tbl _
  have hperm2 : List.Perm (orderByEngagementDesc (scanById tbl)) (scanById tbl) :=
    List.mergeSort_perm _ _
  have hnd_scan : ((scanById tbl).map (fun r => r.id)).Nodup :=
    ((hperm1.map (fun r => r.id)).nodup_iff).mpr hnd
  have hnd_sorted :
      ((orderByEngagementDesc (scanById tbl)).map (fun r => r.id)).Nodup :=
    ((hperm2.map (fun r => r.id)).nodup_iff).mpr hnd_scan
  have hnd_rows : ((topRepliedRows tbl p).map (fun r => r.id)).Nodup := by
    unfold topRepliedRows
    rw [List.map_take]
    exact List.Nodup.sublist (List.take_sublist _ _) hnd_sorted
  have hpairs_nodup :
      ((topRepliedRows tbl p).map
        (fun r => (r.id, r.conversation_id))).Nodup := by
    apply List.Nodup.of_map Prod.fst
    rw [List.map_map]
    exact hnd_rows
  have hdedup : get_top_replied tbl p
      = (topRepliedRows tbl p).map (fun r => (r.id, r.conversation_id)) := by
    unfold get_top_replied
    exact List.dedup_eq_self.mpr hpairs_nodup
  have hlen_sorted : (orderByEngagementDesc (scanById tbl)).length = tbl.length := by
    unfold orderByEngagementDesc scanById
    simp
  have hlen : (get_top_replied tbl p).length
      = min (topRepliedLimit tbl.length p) tbl.length := by
    rw [hdedup, List.length_map]
    unfold topRepliedRows
    rw [List.length_take, hlen_sorted]
  refine ⟨?_, ?_, ?_, hdedup, ?_, ?_⟩
  · intro hp
    rw [hlen]
    have hle : topRepliedLimit tbl.length p ≤ tbl.length := by
      unfold topRepliedLimit
      calc tbl.length * p / 100 ≤ tbl.length * 100 / 100 :=
            Nat.div_le_div_right (Nat.mul_le_mul_left _ hp)
        _ = tbl.length := Nat.mul_div_cancel _ (by norm_num)
    rw [Nat.min_eq_left hle]
    rfl
  · intro hp
    rw [hlen]
    have hge : tbl.length ≤ topRepliedLimit tbl.length p := by
      unfold topRepliedLimit
      calc tbl.length = tbl.length * 100 / 100 :=
            (Nat.mul_div_cancel _ (by norm_num)).symm
        _ ≤ tbl.length * p / 100 :=
            Nat.div_le_div_right (Nat.mul_le_mul_left _ hp)
    exact Nat.min_eq_right hge
  · simp [get_top_replied, topRepliedRows, topRepliedLimit]
  · have hscan_lt : (scanById tbl).Pairwise (fun a b => a.id < b.id) :=
      scanById_pairwise_lt hnd
    have hsorted_pw : (orderByEngagementDesc (scanById tbl)).Pairwise
        (fun a b => engagement b ≤ engagement a) :=
      (List.sorted_mergeSort engagement_le_trans engagement_le_total _).imp
        fun hab => of_decide_eq_true hab
    have hstab : ∀ a b, a ∈ orderByEngagementDesc (scanById tbl) →
        b ∈ orderByEngagementDesc (scanById tbl) →
        engagement a = engagement b → a.id < b.id →
        List.Sublist [a, b] (orderByEngagementDesc (scanById tbl)) := by
      intro a b ha hb heq hlt
      have ha' : a ∈ scanById tbl := List.mem_mergeSort.mp ha
      have hb' : b ∈ scanById tbl := List.mem_mergeSort.mp hb
      exact List.pair_sublist_mergeSort engagement_le_trans engagement_le_total
        (by rw [heq]; simp)
        (pair_sublist_of_pairwise_lt hscan_lt ha' hb' hlt)
    have hfull := pairwise_rankedBefore_of_stable hnd_sorted hsorted_pw hstab
    unfold topRepliedRows
    exact List.Pairwise.sublist (List.take_sublist _ _) hfull
  · rw [hdedup]
    exact hpairs_nodup

/-- C3 witness. -/
theorem c3_amended_floor_count_and_ranking_witness :
    (get_top_replied exampleTable 50).length = exampleTable.length * 50 / 100 ∧
    (topRepliedRows exampleTable 50).Pairwise rankedBefore ∧
    get_top_replied exampleTable 0 = [] :=
  ⟨(c3_amended_floor_count_and_ranking exampleTable 50 (by decide)).1
      (by norm_num),
   (c3_amended_floor_count_and_ranking exampleTable 50 (by decide)).2.2.2.2.1,
   (c3_amended_floor_count_and_ranking exampleTable 0 (by decide)).2.2.1⟩

end TwitterAnalysis
